import Mathlib

/-!
Verification of the Access Control & Audit Plane (cortex-enterprise).

Shallow embedding of the security core: the RBAC permission model
(`src/security/rbac` module, file `src/unnamed/part_004`), the classification
gate (`src/security/classification.ts`), the audit logger
(`src/security/audit.ts`) and the approval manager
(`src/security/approvals.ts`).  TypeScript strings are modelled as `String`
(lists of characters via `String.toList`), optional fields as `Option`,
thrown errors as `Except String`, and the regular expressions of the source
as explicit backtracking matchers over `List Char`.
-/

namespace Cortex

/-! ## Shared types (`src/types/index.ts`) -/

/-- `ClassificationLevel` union type from `src/types/index.ts`. -/
inductive ClassificationLevel where
  | publicLevel
  | internal
  | confidential
  | restricted
deriving DecidableEq

/-- The literal string of each `ClassificationLevel` value, as interpolated
by TypeScript template strings. -/
def clName : ClassificationLevel → String
  | .publicLevel => "public"
  | .internal => "internal"
  | .confidential => "confidential"
  | .restricted => "restricted"

/-- `Actor` interface from `src/types/index.ts`; all of `displayName`,
`email`, `roles` are optional. -/
structure Actor where
  id : String
  displayName : Option String := none
  email : Option String := none
  roles : Option (List String) := none
deriving DecidableEq

/-! ## Classification gate (`src/security/classification.ts`) -/

/-- `CLASSIFICATION_ORDER` array from the source. -/
def CLASSIFICATION_ORDER : List ClassificationLevel :=
  [.publicLevel, .internal, .confidential, .restricted]

/-- `Array.prototype.indexOf` on a list (every level occurs in
`CLASSIFICATION_ORDER`, so the JS `-1` case cannot arise; we return the
index as a `Nat`). -/
def listIndexOf (x : ClassificationLevel) : List ClassificationLevel → Nat
  | [] => 0
  | y :: ys => if x = y then 0 else listIndexOf x ys + 1

/-- `compareClassification` from the source:
`CLASSIFICATION_ORDER.indexOf(a) - CLASSIFICATION_ORDER.indexOf(b)`. -/
def compareClassification (a b : ClassificationLevel) : Int :=
  (listIndexOf a CLASSIFICATION_ORDER : Int) - (listIndexOf b CLASSIFICATION_ORDER : Int)

/-- `ExternalLLMGatingPolicy` interface; the optional boolean
`maskPiiBeforeExternal` is falsy when absent, so it is modelled as a `Bool`
defaulting to `false`. -/
structure ExternalLLMGatingPolicy where
  maxExternalClassification : ClassificationLevel
  maskPiiBeforeExternal : Bool := false
deriving DecidableEq

/-- `canSendToExternalLLM` from the source. -/
def canSendToExternalLLM (classification : ClassificationLevel)
    (policy : ExternalLLMGatingPolicy) : Bool :=
  compareClassification classification policy.maxExternalClassification ≤ 0

/-- Spec-side rank of a level under the stated total order
`public < internal < confidential < restricted` (written independently of
the source's `indexOf`-based comparison, for the monotonicity claim). -/
def levelRank : ClassificationLevel → Nat
  | .publicLevel => 0
  | .internal => 1
  | .confidential => 2
  | .restricted => 3

/-! ## RBAC (`src/unnamed/part_004`) -/

/-- `Role` union type. -/
inductive Role where
  | admin
  | manager
  | developer
  | viewer
deriving DecidableEq

/-- `Permission` union type (nine capabilities). -/
inductive Permission where
  | configRead
  | configWrite
  | auditRead
  | auditWrite
  | skillsRead
  | skillsWrite
  | integrationsUse
  | deployRun
  | approvalsDecide
deriving DecidableEq

/-- The literal string of each `Permission` value. -/
def permName : Permission → String
  | .configRead => "config:read"
  | .configWrite => "config:write"
  | .auditRead => "audit:read"
  | .auditWrite => "audit:write"
  | .skillsRead => "skills:read"
  | .skillsWrite => "skills:write"
  | .integrationsUse => "integrations:use"
  | .deployRun => "deploy:run"
  | .approvalsDecide => "approvals:decide"

/-- `PERMISSIONS` matrix from the source (each `Set` literal becomes a
list; `.has` becomes list membership). -/
def PERMISSIONS : Role → List Permission
  | .admin =>
      [.configRead, .configWrite, .auditRead, .auditWrite, .skillsRead,
       .skillsWrite, .integrationsUse, .deployRun, .approvalsDecide]
  | .manager =>
      [.configRead, .auditRead, .skillsRead, .integrationsUse, .deployRun,
       .approvalsDecide]
  | .developer =>
      [.configRead, .auditRead, .skillsRead, .skillsWrite, .integrationsUse]
  | .viewer => [.configRead, .skillsRead]

/-- ASCII model of `String.prototype.toLowerCase` (role keys are ASCII). -/
def toLowerAscii (s : String) : String :=
  String.mk (s.toList.map Char.toLower)

/-- The key test `rr in PERMISSIONS` followed by use as a `Role`: the
declared keys of the `PERMISSIONS` record. -/
def parseRole (s : String) : Option Role :=
  if s = "admin" then some .admin
  else if s = "manager" then some .manager
  else if s = "developer" then some .developer
  else if s = "viewer" then some .viewer
  else none

/-- Errors the RBAC module can throw: `new Error(msg)` (the permission
denial) and the `TypeError` raised by calling `.has` on a value that is
not a `Set`. -/
inductive JsError where
  | error (msg : String)
  | typeError (msg : String)
deriving DecidableEq

/-- The JS `in` test `rr in PERMISSIONS`: `in` sees the four declared
keys and every inherited `Object.prototype` key.  The argument is always
a lowercased string, and the only all-lowercase `Object.prototype` keys
are `constructor` and `__proto__` (the others — `toString`, `valueOf`,
`hasOwnProperty`, `isPrototypeOf`, `propertyIsEnumerable`,
`toLocaleString`, `__defineGetter__`, `__defineSetter__`,
`__lookupGetter__`, `__lookupSetter__` — contain uppercase letters and
cannot equal a lowercased string). -/
def permissionsHasKey (s : String) : Bool :=
  s = "admin" || s = "manager" || s = "developer" || s = "viewer" ||
    s = "constructor" || s = "__proto__"

/-- `normalizeRoles` from the source: lower-case each string, keep those
passing the `in` test, de-duplicate via a `Set` (insertion order
preserved).  The result is a list of strings cast `as Role`; the cast is
unchecked, so the inherited prototype keys survive into the result. -/
def normalizeRoles (roles : Option (List String)) : List String :=
  (roles.getD []).foldl
    (fun acc r =>
      let rr := toLowerAscii r
      if permissionsHasKey rr then (if rr ∈ acc then acc else acc ++ [rr]) else acc)
    []

/-- `roles.some((r) => PERMISSIONS[r].has(permission))`: left to right,
short-circuiting on the first `true`.  A key without a declared matrix
row reaches an inherited non-`Set` value (`PERMISSIONS["constructor"]` is
the `Object` function, `PERMISSIONS["__proto__"]` is `Object.prototype`),
and the `.has` call throws a `TypeError` (message as V8 renders the
source text of the callee). -/
def someRoleHas (permission : Permission) : List String → Except JsError Bool
  | [] => .ok false
  | r :: rest =>
    match parseRole r with
    | some role =>
      if permission ∈ PERMISSIONS role then .ok true
      else someRoleHas permission rest
    | none => .error (.typeError "PERMISSIONS[r].has is not a function")

/-- `hasPermission` from the source; the `TypeError` a prototype-key role
triggers escapes to the caller. -/
def hasPermission (actor : Actor) (permission : Permission) : Except JsError Bool :=
  let roles := normalizeRoles actor.roles
  if roles.length = 0 then .ok false
  else someRoleHas permission roles

/-- JS `a || b` on an optional string versus a default (both `undefined`
and the empty string are falsy). -/
def truthyOr (o : Option String) (d : String) : String :=
  match o with
  | some s => if s = "" then d else s
  | none => d

/-- The identity used in the `PermissionDenied` message:
`actor.displayName || actor.email || actor.id`. -/
def actorLabel (a : Actor) : String :=
  truthyOr a.displayName (truthyOr a.email a.id)

/-- The `PermissionDenied` message thrown by `assertPermission`. -/
def rbacDeniedMsg (a : Actor) (p : Permission) : String :=
  "[RBAC] Permission denied: " ++ actorLabel a ++ " lacks " ++ permName p

/-- `assertPermission` from the source (`throw` becomes `Except.error`):
a `TypeError` thrown inside `hasPermission` propagates; a clean `false`
throws the `PermissionDenied` error. -/
def assertPermission (a : Actor) (p : Permission) : Except JsError Unit :=
  match hasPermission a p with
  | .error e => .error e
  | .ok true => .ok ()
  | .ok false => .error (.error (rbacDeniedMsg a p))

/-! ## PII masking (`src/security/classification.ts`)

The three regular expressions `EMAIL_RE`, `PHONE_RE` and `CC_RE` are
embedded as explicit backtracking matchers over `List Char`, following the
JS engine's leftmost-match / greedy-with-give-back semantics.  A matcher
receives the character preceding the current position (for `\b`) and the
remaining input, and returns the length of the match starting here. -/

/-- Length of the longest prefix whose characters satisfy `p`
(a greedy character-class repetition). -/
def countWhile (p : Char → Bool) : List Char → Nat
  | [] => 0
  | c :: cs => if p c then countWhile p cs + 1 else 0

/-- Character class `[A-Z0-9._%+-]` under the `i` flag. -/
def isEmailLocalChar (c : Char) : Bool :=
  c.isAlpha || c.isDigit || c = '.' || c = '_' || c = '%' || c = '+' || c = '-'

/-- Character class `[A-Z0-9.-]` under the `i` flag. -/
def isEmailDomChar (c : Char) : Bool :=
  c.isAlpha || c.isDigit || c = '.' || c = '-'

/-- JS `\s` restricted to ASCII. -/
def isJsSpace (c : Char) : Bool :=
  c = ' ' || c = '\t' || c = '\n' || c = '\r' ||
  c = Char.ofNat 11 || c = Char.ofNat 12

/-- Character class `[\d\s().-]` of `PHONE_RE`. -/
def isPhoneMidChar (c : Char) : Bool :=
  c.isDigit || isJsSpace c || c = '(' || c = ')' || c = '.' || c = '-'

/-- JS `\w`. -/
def isWordChar (c : Char) : Bool := c.isAlpha || c.isDigit || c = '_'

/-- Character class `[ -]` of `CC_RE`. -/
def isSepChar (c : Char) : Bool := c = ' ' || c = '-'

/-- Backtracking tail of `EMAIL_RE` after the `@`: `[A-Z0-9.-]+\.[A-Z]{2,}`.
`cs` starts at the domain; the argument is the candidate length of the
`[A-Z0-9.-]+` part, tried longest-first as the greedy engine does; each
candidate requires a literal `.` next and then at least two letters
(taken greedily). -/
def emailDomainTail (cs : List Char) : Nat → Option Nat
  | 0 => none
  | Nat.succ km =>
    let k := km + 1
    match List.drop k cs with
    | '.' :: rest2 =>
      let tld := countWhile Char.isAlpha rest2
      if 2 ≤ tld then some (k + 1 + tld) else emailDomainTail cs km
    | _ => emailDomainTail cs km

/-- `EMAIL_RE = [A-Z0-9._%+-]+@[A-Z0-9.-]+\.[A-Z]{2,}` (flags `gi`) at one
position.  `@` is not in the local-part class, so the greedy local run
needs no give-back: only its maximal length can be followed by `@`. -/
def matchEmailAt (cs : List Char) : Option Nat :=
  let lo := countWhile isEmailLocalChar cs
  if lo = 0 then none
  else
    match List.drop lo cs with
    | '@' :: rest =>
      match emailDomainTail rest (countWhile isEmailDomChar rest) with
      | some dl => some (lo + 1 + dl)
      | none => none
    | _ => none

/-- Backtracking tail of `PHONE_RE`: after the leading digit, try
`[\d\s().-]{7,}` longest-first; each candidate must be followed by a
digit (the final `\d`). -/
def phoneTail (cs : List Char) : Nat → Option Nat
  | 0 => none
  | Nat.succ km =>
    let k := km + 1
    if k < 7 then none
    else
      match List.drop k cs with
      | d :: _ => if d.isDigit then some (k + 1) else phoneTail cs km
      | [] => phoneTail cs km

/-- `\d[\d\s().-]{7,}\d` at one position. -/
def matchPhoneCore (cs : List Char) : Option Nat :=
  match cs with
  | d :: rest =>
    if d.isDigit then
      match phoneTail rest (countWhile isPhoneMidChar rest) with
      | some t => some (1 + t)
      | none => none
    else none
  | [] => none

/-- `PHONE_RE = (\+?\d[\d\s().-]{7,}\d)` (flag `g`) at one position; the
greedy `\+?` consumes a leading `+` first and gives it back on failure
(in which case `\d` must match the `+` itself, which fails). -/
def matchPhoneAt (cs : List Char) : Option Nat :=
  match cs with
  | '+' :: rest =>
    (match matchPhoneCore rest with
     | some n => some (n + 1)
     | none => matchPhoneCore cs)
  | _ => matchPhoneCore cs

/-- End offsets (in characters consumed) of the successive digits of a
chain `\d([ -]*\d)*` starting at `cs`; the lazy `[ -]*?` between units
expands exactly through the separator run when and only when a digit
follows it.  `fuel` bounds recursion (the chain consumes at least one
character per digit). -/
def cardDigitEndsGo : Nat → Nat → List Char → List Nat
  | 0, _, _ => []
  | Nat.succ fuel, pos, cs =>
    match cs with
    | c :: rest =>
      if c.isDigit then
        (pos + 1) ::
          (let s := countWhile isSepChar rest
           let rest2 := List.drop s rest
           match rest2 with
           | d :: _ =>
             if d.isDigit then cardDigitEndsGo fuel (pos + 1 + s) rest2 else []
           | [] => [])
      else []
    | [] => []

/-- Greedy count of `CC_RE`'s `(?:\d[ -]*?){13,19}`: try 19 units down to
13; a candidate match ends right after its last digit (the final lazy
separator matches empty) and requires `\b` there, i.e. end of input or a
non-word character. -/
def cardTry (ends : List Nat) (cs : List Char) : Nat → Option Nat
  | 0 => none
  | Nat.succ mm =>
    let m := mm + 1
    if m < 13 then none
    else
      match ends.get? (m - 1) with
      | some e =>
        (match List.drop e cs with
         | [] => some e
         | d :: _ => if isWordChar d then cardTry ends cs mm else some e)
      | none => cardTry ends cs mm

/-- `CC_RE = \b(?:\d[ -]*?){13,19}\b` (flag `g`) at one position.  The
first unit starts with `\d` (a word character), so the leading `\b` holds
iff the previous character is absent or not a word character. -/
def matchCardAt (prev : Option Char) (cs : List Char) : Option Nat :=
  let boundaryOk := match prev with | none => true | some c => !(isWordChar c)
  if !boundaryOk then none
  else cardTry (cardDigitEndsGo cs.length 0 cs) cs 19

/-- One pass of `String.prototype.replace` with a global regex: scan left
to right, at each position attempt the matcher; on a match of length `n`
emit `marker`, record the matched characters, and resume after the match
(the previous-character context for `\b` is the last character of the
match in the original text).  `fuel` bounds recursion; `fuel = length`
suffices since every step consumes at least one character. -/
def replaceScanGo (m : Option Char → List Char → Option Nat)
    (marker : List Char) :
    Nat → Option Char → List Char → List Char × List (List Char)
  | 0, _, cs => (cs, [])
  | _ + 1, _, [] => ([], [])
  | fuel + 1, prev, c :: cs =>
    match m prev (c :: cs) with
    | some n =>
      let matched := List.take n (c :: cs)
      let r := replaceScanGo m marker fuel matched.getLast? (List.drop (n - 1) cs)
      (marker ++ r.1, matched :: r.2)
    | none =>
      let r := replaceScanGo m marker fuel (some c) cs
      (c :: r.1, r.2)

/-- `text.replace(re, ...)` collecting the matched substrings, as used by
`maskPII`'s `replaceAll` helper. -/
def replaceScan (m : Option Char → List Char → Option Nat) (marker : List Char)
    (cs : List Char) : List Char × List (List Char) :=
  replaceScanGo m marker cs.length none cs

/-- One `{kind, value}` entry of `PiiMaskResult.matches`. -/
structure PiiMatch where
  kind : String
  value : String
deriving DecidableEq

/-- `PiiMaskResult` interface (the source field `matches` is a reserved
word in Lean, hence `matchList`). -/
structure PiiMaskResult where
  text : String
  masked : Bool
  matchList : List PiiMatch
deriving DecidableEq

/-- `maskPII` from the source: three `replaceAll` passes (email, phone,
card) over the progressively rewritten text; each match is replaced by its
typed marker and pushed onto `matches` in pass order. -/
def maskPII (input : String) : PiiMaskResult :=
  let t0 := input.toList
  let e := replaceScan (fun _ cs => matchEmailAt cs) "[EMAIL_REDACTED]".toList t0
  let p := replaceScan (fun _ cs => matchPhoneAt cs) "[PHONE_REDACTED]".toList e.1
  let c := replaceScan matchCardAt "[CARD_REDACTED]".toList p.1
  let ms : List PiiMatch :=
    e.2.map (fun v => ⟨"email", String.mk v⟩) ++
    p.2.map (fun v => ⟨"phone", String.mk v⟩) ++
    c.2.map (fun v => ⟨"card", String.mk v⟩)
  ⟨String.mk c.1, decide (0 < ms.length), ms⟩

/-- The `ClassificationBlocked` message thrown by `gateExternalLLM`. -/
def gateBlockedMsg (classification mx : ClassificationLevel) : String :=
  "[CLASSIFICATION] External LLM blocked for classification=" ++
    clName classification ++ "; max=" ++ clName mx

/-- `gateExternalLLM` from the source (`throw` becomes `Except.error`);
returns `(text, masked)` on success. -/
def gateExternalLLM (classification : ClassificationLevel)
    (policy : ExternalLLMGatingPolicy) (text : String) :
    Except String (String × Bool) :=
  if !canSendToExternalLLM classification policy then
    .error (gateBlockedMsg classification policy.maxExternalClassification)
  else if policy.maskPiiBeforeExternal then
    let r := maskPII text
    .ok (r.text, r.masked)
  else
    .ok (text, false)

/-! ## Audit logging (`src/security/audit.ts`)

Events are serialised with a model of `JSON.stringify`: JSON values,
string escaping, and field order following the interface declaration
order (`JSON.stringify` omits `undefined` fields). -/

/-- JSON values (the `unknown` payloads of `details`). -/
inductive JVal where
  | str (s : String)
  | num (n : Int)
  | bool (b : Bool)
  | null
  | arr (elems : List JVal)
  | obj (fields : List (String × JVal))

/-- Hex digit for `\u00XX` escapes. -/
def hexDigit (n : Nat) : Char :=
  if n < 10 then Char.ofNat (48 + n) else Char.ofNat (87 + n)

/-- `JSON.stringify` escaping of one character inside a string literal. -/
def jsonEscapeChar (c : Char) : List Char :=
  if c = '"' then ['\\', '"']
  else if c = '\\' then ['\\', '\\']
  else if c = '\n' then ['\\', 'n']
  else if c = '\r' then ['\\', 'r']
  else if c = '\t' then ['\\', 't']
  else if c = Char.ofNat 8 then ['\\', 'b']
  else if c = Char.ofNat 12 then ['\\', 'f']
  else if c.toNat < 32 then
    ['\\', 'u', '0', '0', hexDigit (c.toNat / 16), hexDigit (c.toNat % 16)]
  else [c]

/-- A JSON string literal with quotes and escapes. -/
def jsonQuote (s : String) : String :=
  String.mk ('"' :: (s.toList.map jsonEscapeChar).flatten ++ ['"'])

mutual

/-- `JSON.stringify` of a JSON value. -/
def jvalToJson : JVal → String
  | .str s => jsonQuote s
  | .num n => toString n
  | .bool b => cond b "true" "false"
  | .null => "null"
  | .arr es => "[" ++ jvalArrBody es ++ "]"
  | .obj fs => "\x7b" ++ jvalObjBody fs ++ "\x7d"

/-- Comma-separated array elements. -/
def jvalArrBody : List JVal → String
  | [] => ""
  | [e] => jvalToJson e
  | e :: es => jvalToJson e ++ "," ++ jvalArrBody es

/-- Comma-separated `"key":value` pairs. -/
def jvalObjBody : List (String × JVal) → String
  | [] => ""
  | [kv] => jsonQuote kv.1 ++ ":" ++ jvalToJson kv.2
  | kv :: fs => jsonQuote kv.1 ++ ":" ++ jvalToJson kv.2 ++ "," ++ jvalObjBody fs

end

/-- `AuditEvent` interface from `src/types/index.ts` (`details` is a
`Record<string, unknown>`, modelled as ordered key/value pairs). -/
structure AuditEvent where
  ts : String
  event : String
  actor : Option Actor := none
  channel : Option String := none
  classification : Option ClassificationLevel := none
  redacted : Option Bool := none
  details : Option (List (String × JVal)) := none

/-- An optional JSON field: omitted when the value is `undefined`. -/
def optField (k : String) : Option JVal → List (String × JVal)
  | some v => [(k, v)]
  | none => []

/-- `Actor` as a JSON value (declaration field order). -/
def actorJVal (a : Actor) : JVal :=
  .obj ([("id", .str a.id)] ++
    optField "displayName" (a.displayName.map .str) ++
    optField "email" (a.email.map .str) ++
    optField "roles" (a.roles.map (fun rs => .arr (rs.map .str))))

/-- The fields of a serialised `AuditEvent` (declaration order;
`undefined` fields omitted). -/
def auditEventFields (e : AuditEvent) : List (String × JVal) :=
  [("ts", .str e.ts), ("event", .str e.event)] ++
    optField "actor" (e.actor.map actorJVal) ++
    optField "channel" (e.channel.map .str) ++
    optField "classification" (e.classification.map (fun c => .str (clName c))) ++
    optField "redacted" (e.redacted.map .bool) ++
    optField "details" (e.details.map .obj)

/-- `JSON.stringify(event)`. -/
def stringifyAuditEvent (e : AuditEvent) : String :=
  jvalToJson (.obj (auditEventFields e))

/-! ### Redaction patterns (`DEFAULT_REDACT_PATTERNS`)

A redaction pattern is a matcher returning, at a given position, the match
length and the replacement text produced by `redactText`'s callback
(`[REDACTED]`, or `` `${g1}[REDACTED]` `` for the two-group patterns). -/

/-- Character class `[A-Za-z0-9\-_.=]` of the bearer pattern. -/
def isBearerTokenChar (c : Char) : Bool :=
  c.isAlpha || c.isDigit || c = '-' || c = '_' || c = '.' || c = '='

/-- Character class `[A-Za-z0-9\-_.]` of the api-key/token patterns. -/
def isKeyTokenChar (c : Char) : Bool :=
  c.isAlpha || c.isDigit || c = '-' || c = '_' || c = '.'

/-- Character class `[A-Za-z0-9-]` of the Slack pattern. -/
def isSlackChar (c : Char) : Bool := c.isAlpha || c.isDigit || c = '-'

/-- Case-insensitive literal prefix test (for the `i` flag). -/
def ciStartsWith : List Char → List Char → Bool
  | [], _ => true
  | _ :: _, [] => false
  | l :: ls, c :: cs => l.toLower = c.toLower && ciStartsWith ls cs

/-- `Bearer\s+[A-Za-z0-9\-_.=]+` (flag `g`) at one position. -/
def matchBearerAt (cs : List Char) : Option (Nat × List Char) :=
  match cs with
  | 'B' :: 'e' :: 'a' :: 'r' :: 'e' :: 'r' :: rest =>
    let w := countWhile isJsSpace rest
    if w = 0 then none
    else
      let t := countWhile isBearerTokenChar (List.drop w rest)
      if t = 0 then none else some (6 + w + t, "[REDACTED]".toList)
  | _ => none

/-- `\s*[:=]\s*`: length consumed, or `none` when no `:`/`=` occurs. -/
def kvSepTail (cs : List Char) : Option Nat :=
  let w1 := countWhile isJsSpace cs
  match List.drop w1 cs with
  | c :: rest =>
    if c = ':' || c = '=' then some (w1 + 1 + countWhile isJsSpace rest) else none
  | [] => none

/-- Shared tail of the two captured key/value patterns: given the length
of the already-matched group-1 head (`api[_-]?key` or `token`), match
`\s*[:=]\s*` (completing group 1) and then group 2,
`[A-Za-z0-9\-_.]{8,}`; the replacement is `g1 + "[REDACTED]"`. -/
def kvPatternTail (cs : List Char) (headLen : Nat) : Option (Nat × List Char) :=
  match kvSepTail (List.drop headLen cs) with
  | some sl =>
    let g1len := headLen + sl
    let tok := countWhile isKeyTokenChar (List.drop g1len cs)
    if 8 ≤ tok then some (g1len + tok, List.take g1len cs ++ "[REDACTED]".toList)
    else none
  | none => none

/-- `(api[_-]?key\s*[:=]\s*)([A-Za-z0-9\-_.]{8,})` (flags `gi`) at one
position.  The greedy `[_-]?` consumes a separator only when `key`
follows it; giving it back otherwise requires `key` at the separator
character, which fails. -/
def matchApiKeyAt (cs : List Char) : Option (Nat × List Char) :=
  if ciStartsWith ['a', 'p', 'i'] cs then
    let rest3 := List.drop 3 cs
    let headLen : Option Nat :=
      match rest3 with
      | c :: r2 =>
        if (c = '_' || c = '-') && ciStartsWith ['k', 'e', 'y'] r2 then some 7
        else if ciStartsWith ['k', 'e', 'y'] rest3 then some 6
        else none
      | [] => none
    match headLen with
    | some hl => kvPatternTail cs hl
    | none => none
  else none

/-- `(token\s*[:=]\s*)([A-Za-z0-9\-_.]{8,})` (flags `gi`) at one position. -/
def matchTokenKVAt (cs : List Char) : Option (Nat × List Char) :=
  if ciStartsWith ['t', 'o', 'k', 'e', 'n'] cs then kvPatternTail cs 5
  else none

/-- `xox[baprs]-[A-Za-z0-9-]{10,}` (flag `g`) at one position. -/
def matchSlackAt (cs : List Char) : Option (Nat × List Char) :=
  match cs with
  | 'x' :: 'o' :: 'x' :: c :: '-' :: rest =>
    if c = 'b' || c = 'a' || c = 'p' || c = 'r' || c = 's' then
      let t := countWhile isSlackChar rest
      if 10 ≤ t then some (5 + t, "[REDACTED]".toList) else none
    else none
  | _ => none

/-- `DEFAULT_REDACT_PATTERNS` from the source, in order. -/
def DEFAULT_REDACT_PATTERNS : List (List Char → Option (Nat × List Char)) :=
  [matchBearerAt, matchApiKeyAt, matchTokenKVAt, matchSlackAt]

/-- One global `String.prototype.replace` pass for a redaction pattern:
replaced text plus a flag recording whether the callback fired (which is
exactly when `redactText` sets `changed`).  `fuel = length` suffices
since each step consumes at least one character. -/
def redactScanGo (m : List Char → Option (Nat × List Char)) :
    Nat → List Char → List Char × Bool
  | 0, cs => (cs, false)
  | _ + 1, [] => ([], false)
  | fuel + 1, c :: cs =>
    match m (c :: cs) with
    | some (n, rep) =>
      let r := redactScanGo m fuel (List.drop (n - 1) cs)
      (rep ++ r.1, true)
    | none =>
      let r := redactScanGo m fuel cs
      (c :: r.1, r.2)

/-- `redactText` from the source: fold the patterns over the text; the
`changed` flag is set whenever any pattern matched (both the callback
assignment and the `out !== before` re-check only ever set it after a
match). -/
def redactText (text : String)
    (patterns : List (List Char → Option (Nat × List Char))) : String × Bool :=
  let r := patterns.foldl
    (fun acc p =>
      let s := redactScanGo p acc.1.length acc.1
      (s.1, acc.2 || s.2))
    (text.toList, false)
  (String.mk r.1, r.2)

/-- Set a key on a JS object literal: an existing key is overridden in
place, a new key is appended (spread-then-assign order). -/
def objSet (fs : List (String × JVal)) (k : String) (v : JVal) :
    List (String × JVal) :=
  if fs.any (fun kv => kv.1 = k) then
    fs.map (fun kv => if kv.1 = k then (k, v) else kv)
  else fs ++ [(k, v)]

/-- The runtime type of the source's `final`: `AuditEvent | string`.  In
the unchanged branch `final = event` (an object); in the changed branch
the source assigns `final = JSON.stringify({...})` — a string. -/
inductive AuditLogFinalVal where
  | obj (e : AuditEvent)
  | strVal (s : String)

/-- The value `final` computed by `AuditLogger.log`: when any redaction
pattern matched the serialised event, the *string*
`JSON.stringify({ ...event, redacted: true, details: { ...(event.details ?? \x7b\x7d), _redacted: true } })`
(note: the computed redacted text is discarded by the source, and the
original `details` entries are kept inside the spread); otherwise the
event object itself. -/
def auditLogFinal (patterns : List (List Char → Option (Nat × List Char)))
    (e : AuditEvent) : AuditLogFinalVal :=
  let line := stringifyAuditEvent e
  let r := redactText line patterns
  if r.2 then
    .strVal (stringifyAuditEvent
      { e with redacted := some true,
               details := some (objSet (e.details.getD []) "_redacted" (.bool true)) })
  else .obj e

/-- The line appended to the primary JSONL sink:
`JSON.stringify(final)`.  In the changed branch `final` is already a
string, so the appended line is a double-encoded JSON string literal
(the inner serialisation quoted and escaped). -/
def auditLogPrimaryLine (patterns : List (List Char → Option (Nat × List Char)))
    (e : AuditEvent) : String :=
  match auditLogFinal patterns e with
  | .obj ev => stringifyAuditEvent ev
  | .strVal s => jsonQuote s

/-- `(final as any).redacted ?? false`: in the changed branch `final` is
a string primitive, property access yields `undefined`, and the flag
collapses to `false`; in the unchanged branch it is the event's own
optional `redacted` field. -/
def finalRedactedFlag : AuditLogFinalVal → Bool
  | .obj ev => ev.redacted.getD false
  | .strVal _ => false

/-- The row inserted into the secondary (Supabase) sink by
`AuditLogger.log`: note `details: event.details ?? null` — the original
details, not the final record's. -/
structure SupabaseAuditRow where
  ts : String
  event : String
  actor : Option Actor
  channel : Option String
  classification : Option ClassificationLevel
  redacted : Bool
  details : Option (List (String × JVal))

/-- The secondary-sink insert of `AuditLogger.log`:
`redacted: (final as any).redacted ?? false` and
`details: event.details ?? null` — the original details. -/
def auditLogSupabaseRow (patterns : List (List Char → Option (Nat × List Char)))
    (e : AuditEvent) : SupabaseAuditRow :=
  { ts := e.ts, event := e.event, actor := e.actor, channel := e.channel,
    classification := e.classification,
    redacted := finalRedactedFlag (auditLogFinal patterns e),
    details := e.details }

/-! ### `AuditLogger.search` -/

/-- `content.split(/\r?\n/)`: split at `\n` or `\r\n` (a lone `\r` is
content). -/
def splitLinesGo : List Char → List Char → List (List Char)
  | [], acc => [acc.reverse]
  | '\r' :: '\n' :: rest, acc => acc.reverse :: splitLinesGo rest []
  | '\n' :: rest, acc => acc.reverse :: splitLinesGo rest []
  | c :: rest, acc => splitLinesGo rest (c :: acc)

/-- The lines of the JSONL file. -/
def splitLinesJS (cs : List Char) : List (List Char) := splitLinesGo cs []

/-- JS `String.prototype.includes`. -/
def containsSub (hay needle : List Char) : Bool := decide (needle <:+: hay)

/-- The scan loop of `AuditLogger.search`: iterate lines newest-first,
skip lines not containing the query, parse the rest (`JSON.parse` is a
runtime builtin, abstracted as `parse`), push successes, and stop once
`limit` results are collected (the length check runs after a successful
push only). -/
def searchGo (parse : String → Option AuditEvent) (query : String) (limit : Nat) :
    List String → List AuditEvent → List AuditEvent
  | [], out => out
  | l :: rest, out =>
    if !containsSub l.toList query.toList then searchGo parse query limit rest out
    else
      match parse l with
      | some e =>
        let out2 := out ++ [e]
        if limit ≤ out2.length then out2 else searchGo parse query limit rest out2
      | none => searchGo parse query limit rest out

/-- `AuditLogger.search` from the source: `limit = params.limit ?? 50`,
split the file into lines, drop empties, scan from the last line
backwards. -/
def search (parse : String → Option AuditEvent) (content : String)
    (query : String) (limitOpt : Option Nat) : List AuditEvent :=
  let limit := limitOpt.getD 50
  let lines := (splitLinesJS content.toList).filter (fun l => !l.isEmpty)
  searchGo parse query limit (lines.reverse.map String.mk) []

/-! ## Approval manager (`src/security/approvals.ts`)

The manager's mutable state (the `pending` map, the set of armed timers,
and the sequence of calls to promise `resolve` closures) is made explicit,
and the two mutation sites — `decide()` and the `setTimeout` callback —
become atomic transitions, faithful to the cooperative single-threaded
runtime in which each runs to completion.  `crypto.randomUUID` ids and
`new Date().toISOString()` timestamps are supplied by the scheduler; a
trace is valid when every `create` uses a fresh id (UUIDs do not collide)
and a timer callback only fires while its timer is armed (`clearTimeout`
prevents a cleared timer's callback from ever running). -/

/-- `ApprovalDecision` union type from `src/types/index.ts`. -/
inductive ApprovalDecision where
  | approved
  | rejected
  | timeout
deriving DecidableEq

/-- The `decision` parameter of `decide()`: `"approved" | "rejected"`. -/
inductive DecideDecision where
  | approved
  | rejected
deriving DecidableEq

/-- Injection into `ApprovalDecision`. -/
def DecideDecision.toDecision : DecideDecision → ApprovalDecision
  | .approved => .approved
  | .rejected => .rejected

/-- `ApprovalRequest` interface from `src/types/index.ts` (metadata as
ordered key/value pairs). -/
structure ApprovalRequest where
  id : String
  title : String
  description : Option String := none
  requestedBy : Actor
  createdAt : String
  timeoutMs : Nat
  metadata : Option (List (String × JVal)) := none

/-- `ApprovalResult` interface from `src/types/index.ts`. -/
structure ApprovalResult where
  id : String
  decision : ApprovalDecision
  decidedBy : Option Actor := none
  decidedAt : String
  reason : Option String := none

/-- The parameters of `createApproval`. -/
structure CreateParams where
  title : String
  description : Option String := none
  requestedBy : Actor
  timeoutMs : Option Nat := none
  metadata : Option (List (String × JVal)) := none

/-- The `ApprovalManager` state: the private `pending` map (insertion
ordered), the armed (set and not yet cleared or fired) timers, the
recorded `resolve` calls in order, and the constructor option
`defaultTimeoutMs`. -/
structure ApprovalManagerState where
  pending : List (String × ApprovalRequest)
  activeTimers : List String
  resolutions : List ApprovalResult
  defaultTimeoutMs : Option Nat

/-- A fresh manager (`new ApprovalManager(opts)`). -/
def initState (opts : Option Nat) : ApprovalManagerState :=
  { pending := [], activeTimers := [], resolutions := [], defaultTimeoutMs := opts }

/-- JS `Map.prototype.get`. -/
def lookupKey : List (String × ApprovalRequest) → String → Option ApprovalRequest
  | [], _ => none
  | kv :: rest, id => if kv.1 = id then some kv.2 else lookupKey rest id

/-- JS `Map.prototype.delete`. -/
def removeKey (id : String) (l : List (String × ApprovalRequest)) :
    List (String × ApprovalRequest) :=
  l.filter (fun kv => !decide (kv.1 = id))

/-- Disarm a timer (`clearTimeout`, or a timer consuming itself by
firing). -/
def removeTimer (id : String) (l : List String) : List String :=
  l.filter (fun t => !decide (t = id))

/-- Whether the timer of `id` is armed. -/
def timerSet (l : List String) (id : String) : Bool :=
  l.any (fun t => decide (t = id))

/-- `createApproval` from the source: build the request (timeout from the
parameter, else the constructor default, else 5 minutes), arm its timer,
register it pending, return the request (the promise's `resolve` closure
is keyed by `id`). -/
def createApproval (s : ApprovalManagerState) (id now : String) (p : CreateParams) :
    ApprovalManagerState × ApprovalRequest :=
  let timeoutMs := p.timeoutMs.getD (s.defaultTimeoutMs.getD (5 * 60000))
  let request : ApprovalRequest :=
    { id := id, title := p.title, description := p.description,
      requestedBy := p.requestedBy, createdAt := now, timeoutMs := timeoutMs,
      metadata := p.metadata }
  ({ s with pending := s.pending ++ [(id, request)],
            activeTimers := s.activeTimers ++ [id] }, request)

/-- `decide` from the source (named `decideApproval` here since `decide`
is a Lean builtin): a miss returns `false` untouched; a hit clears the
timer, removes the entry, resolves the future with
`{id, decision, decidedBy: actor, decidedAt: now, reason}` and returns
`true`. -/
def decideApproval (s : ApprovalManagerState) (requestId : String)
    (decision : DecideDecision) (actor : Actor) (reason : Option String)
    (now : String) : Bool × ApprovalManagerState :=
  match lookupKey s.pending requestId with
  | none => (false, s)
  | some _ =>
    (true,
     { s with
        pending := removeKey requestId s.pending,
        activeTimers := removeTimer requestId s.activeTimers,
        resolutions := s.resolutions ++
          [{ id := requestId, decision := decision.toDecision,
             decidedBy := some actor, decidedAt := now, reason := reason }] })

/-- The `setTimeout` callback of `createApproval`: unconditionally delete
the pending entry and resolve with `decision: "timeout"` (the callback
itself performs no pending check; it can only run while its timer is
armed, and consumes the timer by firing). -/
def timerCallback (s : ApprovalManagerState) (id now : String) :
    ApprovalManagerState :=
  { s with
      pending := removeKey id s.pending,
      activeTimers := removeTimer id s.activeTimers,
      resolutions := s.resolutions ++
        [{ id := id, decision := .timeout, decidedAt := now }] }

/-- A schedulable event on one manager. -/
inductive MgrAction where
  | create (id now : String) (p : CreateParams)
  | decideReq (requestId : String) (decision : DecideDecision) (actor : Actor)
      (reason : Option String) (now : String)
  | fire (id now : String)

/-- One atomic transition. -/
def step (s : ApprovalManagerState) : MgrAction → ApprovalManagerState
  | .create id now p => (createApproval s id now p).1
  | .decideReq rid d a r now => (decideApproval s rid d a r now).2
  | .fire id now => timerCallback s id now

/-- Scheduler validity: `create` ids are fresh (`crypto.randomUUID` does
not collide with any id ever used), and a timer callback runs only while
its timer is armed (`clearTimeout` in `decide` prevents the cleared
callback from running; a timer fires at most once). -/
def validAction (s : ApprovalManagerState) : MgrAction → Bool
  | .create id _ _ =>
      !(lookupKey s.pending id).isSome && !timerSet s.activeTimers id &&
        !s.resolutions.any (fun r => decide (r.id = id))
  | .decideReq _ _ _ _ _ => true
  | .fire id _ => timerSet s.activeTimers id

/-- Run a list of events. -/
def run (s : ApprovalManagerState) : List MgrAction → ApprovalManagerState
  | [] => s
  | a :: tr => run (step s a) tr

/-- All events of the trace are valid in the states they fire from. -/
def validTrace (s : ApprovalManagerState) : List MgrAction → Bool
  | [] => true
  | a :: tr => validAction s a && validTrace (step s a) tr

/-- How often the promise of `id` has been resolved. -/
def resCount (s : ApprovalManagerState) (id : String) : Nat :=
  (s.resolutions.filter (fun r => decide (r.id = id))).length

/-- Whether the action is `create` for this id. -/
def isCreateOf (id : String) : MgrAction → Bool
  | .create i _ _ => decide (i = id)
  | _ => false

/-- Shape of any resolution of `id`: either the timer's
(`decision = timeout`, nobody decided) or a decision's
(`approved`/`rejected` with the deciding actor recorded). -/
def resShape (id : String) (r : ApprovalResult) : Prop :=
  r.id = id →
    (r.decision = .timeout ∧ r.decidedBy = none) ∨
    (r.decision ≠ .timeout ∧ r.decidedBy ≠ none)

/-- Invariant before `id` was ever created. -/
def UncreatedInv (s : ApprovalManagerState) (id : String) : Prop :=
  lookupKey s.pending id = none ∧ timerSet s.activeTimers id = false ∧
    ∀ r ∈ s.resolutions, r.id ≠ id

/-- Invariant from the moment `id` was created: the entry is pending
exactly while its timer is armed, the promise is unresolved while the
timer is armed and resolved exactly once thereafter, and every resolution
of `id` has the decide-or-timeout shape. -/
def LiveInv (s : ApprovalManagerState) (id : String) : Prop :=
  (lookupKey s.pending id).isSome = timerSet s.activeTimers id ∧
    resCount s id = (if timerSet s.activeTimers id then 0 else 1) ∧
    ∀ r ∈ s.resolutions, resShape id r

/-! ## Concrete instances used by witnesses and counterexamples -/

/-- The manager state after a schedule that creates `id` once: an
arbitrary valid prefix, the `create`, and an arbitrary valid suffix. -/
def afterTrace (opts : Option Nat) (id now : String) (prm : CreateParams)
    (t1 t2 : List MgrAction) : ApprovalManagerState :=
  run (initState opts) (t1 ++ .create id now prm :: t2)

/-- The requesting actor of the witness schedules. -/
def wActor : Actor := { id := "u1" }

/-- The creation parameters of the witness schedules. -/
def wParams : CreateParams := { title := "deploy", requestedBy := wActor }

/-- The pending request of the C3 witness state. -/
def wReq : ApprovalRequest :=
  { id := "r1", title := "t", requestedBy := wActor, createdAt := "t0",
    timeoutMs := 1000 }

/-- A manager state with one pending approval. -/
def wState : ApprovalManagerState :=
  { pending := [("r1", wReq)], activeTimers := ["r1"], resolutions := [],
    defaultTimeoutMs := none }

/-- Concrete audit events for the `search` example file. -/
def c9EventA : AuditEvent := { ts := "1", event := "a x" }

/-- Second (newer) event in the example file. -/
def c9EventB : AuditEvent := { ts := "2", event := "b x" }

/-- The example JSONL file: two well-formed lines around one malformed
line, all containing the query `x`. -/
def c9Content : String :=
  stringifyAuditEvent c9EventA ++ "\n" ++ "not json x" ++ "\n" ++
    stringifyAuditEvent c9EventB

/-- Modelled from the spec: `JSON.parse` (a JS runtime builtin, not part
of this repository) restricted to the lines of `c9Content` — it succeeds
exactly on the two well-formed JSON object lines and fails on the
malformed one. -/
def c9ParseFn (l : String) : Option AuditEvent :=
  if l = stringifyAuditEvent c9EventA then some c9EventA
  else if l = stringifyAuditEvent c9EventB then some c9EventB
  else none

/-- The failing input of the redaction-safety claim: an audit event whose
details contain a bearer token, so that the serialised event text matches
`DEFAULT_REDACT_PATTERNS[0]`. -/
def bearerSecretEvent : AuditEvent :=
  { ts := "2024-01-01T00:00:00Z", event := "llm.call",
    details := some [("note", .str "Bearer abc123XYZsecretvalue")] }

/-! ## Helper lemmas -/

/-- Appending a differently-keyed entry does not change a lookup. -/
theorem lookupKey_append_ne (l : List (String × ApprovalRequest)) (id2 id : String)
    (req : ApprovalRequest) (h : id2 ≠ id) :
    lookupKey (l ++ [(id2, req)]) id = lookupKey l id := by
  induction l with
  | nil => simp [lookupKey, h]
  | cons kv rest ih => by_cases hkv : kv.1 = id <;> simp [lookupKey, hkv, ih]

/-- Appending an entry for an absent key makes it present. -/
theorem lookupKey_append_self (l : List (String × ApprovalRequest)) (id : String)
    (req : ApprovalRequest) (h : lookupKey l id = none) :
    lookupKey (l ++ [(id, req)]) id = some req := by
  induction l with
  | nil => simp [lookupKey]
  | cons kv rest ih =>
    by_cases hkv : kv.1 = id
    · simp [lookupKey, hkv] at h
    · simp [lookupKey, hkv] at h ⊢
      exact ih h

/-- Deleting a key removes it. -/
theorem lookupKey_removeKey_self (l : List (String × ApprovalRequest)) (id : String) :
    lookupKey (removeKey id l) id = none := by
  induction l with
  | nil => rfl
  | cons kv rest ih =>
    by_cases hkv : kv.1 = id
    · simpa [removeKey, hkv] using ih
    · simpa [removeKey, lookupKey, hkv] using ih

/-- Deleting another key does not change a lookup. -/
theorem lookupKey_removeKey_ne (l : List (String × ApprovalRequest)) (rid id : String)
    (h : rid ≠ id) : lookupKey (removeKey rid l) id = lookupKey l id := by
  induction l with
  | nil => rfl
  | cons kv rest ih =>
    by_cases hkv : kv.1 = rid
    · simpa [removeKey, List.filter_cons, hkv, lookupKey, h] using ih
    · by_cases hid : kv.1 = id
      · simp [removeKey, List.filter_cons, hkv, lookupKey, hid, Ne.symm h]
      · simpa [removeKey, List.filter_cons, hkv, lookupKey, hid] using ih

/-- Arming a different timer does not change armedness. -/
theorem timerSet_append_ne (l : List String) (id2 id : String) (h : id2 ≠ id) :
    timerSet (l ++ [id2]) id = timerSet l id := by
  simp [timerSet, h]

/-- Arming a timer arms it. -/
theorem timerSet_append_self (l : List String) (id : String) :
    timerSet (l ++ [id]) id = true := by
  simp [timerSet]

/-- Disarming a timer disarms it. -/
theorem timerSet_removeTimer_self (l : List String) (id : String) :
    timerSet (removeTimer id l) id = false := by
  simp [removeTimer, timerSet]

/-- Disarming another timer does not change armedness. -/
theorem timerSet_removeTimer_ne (l : List String) (rid id : String) (h : rid ≠ id) :
    timerSet (removeTimer rid l) id = timerSet l id := by
  induction l with
  | nil => rfl
  | cons t rest ih =>
    by_cases ht : t = rid
    · simpa [removeTimer, timerSet, List.filter_cons, ht, h] using ih
    · by_cases hid : t = id
      · simp [removeTimer, timerSet, List.filter_cons, ht, hid, Ne.symm h]
      · simpa [removeTimer, timerSet, List.filter_cons, ht, hid] using ih

/-- `resCount` after appending a resolution of the same id. -/
theorem resCount_append_self (s : ApprovalManagerState) (id : String)
    (r : ApprovalResult) (h : r.id = id) (rest : List ApprovalResult)
    (heq : rest = s.resolutions ++ [r]) :
    (rest.filter (fun x => decide (x.id = id))).length = resCount s id + 1 := by
  subst heq
  simp [resCount, List.filter_append, h]

/-- `run` distributes over trace concatenation. -/
theorem run_append (s : ApprovalManagerState) (l1 l2 : List MgrAction) :
    run s (l1 ++ l2) = run (run s l1) l2 := by
  induction l1 generalizing s with
  | nil => rfl
  | cons a rest ih => simp [run, ih]

/-- Validity of a concatenated trace splits. -/
theorem validTrace_append (s : ApprovalManagerState) (l1 l2 : List MgrAction) :
    validTrace s (l1 ++ l2) = (validTrace s l1 && validTrace (run s l1) l2) := by
  induction l1 generalizing s with
  | nil => simp [validTrace, run]
  | cons a rest ih => simp [validTrace, run, ih, Bool.and_assoc]

/-- One valid non-`create id` step preserves the uncreated invariant. -/
theorem UncreatedInv_step (s : ApprovalManagerState) (id : String) (a : MgrAction)
    (hv : validAction s a = true) (hnc : isCreateOf id a = false)
    (h : UncreatedInv s id) : UncreatedInv (step s a) id := by
  obtain ⟨hp, ht, hr⟩ := h
  cases a with
  | create id2 now p =>
    have hne : id2 ≠ id := by simpa [isCreateOf] using hnc
    refine ⟨?_, ?_, ?_⟩
    · simpa [step, createApproval, lookupKey_append_ne _ _ _ _ hne] using hp
    · simpa [step, createApproval, timerSet_append_ne _ _ _ hne] using ht
    · simpa [step, createApproval] using hr
  | decideReq rid d act reason now =>
    cases hl : lookupKey s.pending rid with
    | none => simpa [step, decideApproval, hl] using ⟨hp, ht, hr⟩
    | some req =>
      have hne : rid ≠ id := by
        intro hcontra
        rw [hcontra, hp] at hl
        exact Option.noConfusion hl
      refine ⟨?_, ?_, ?_⟩
      · simpa [step, decideApproval, hl, lookupKey_removeKey_ne _ _ _ hne] using hp
      · simpa [step, decideApproval, hl, timerSet_removeTimer_ne _ _ _ hne] using ht
      · intro r hrm
        simp [step, decideApproval, hl] at hrm
        rcases hrm with hrm | hrm
        · exact hr r hrm
        · rw [hrm]; exact hne
  | fire fid now =>
    have hne : fid ≠ id := by
      intro hcontra
      rw [hcontra] at hv
      simp [validAction, ht] at hv
    refine ⟨?_, ?_, ?_⟩
    · simpa [step, timerCallback, lookupKey_removeKey_ne _ _ _ hne] using hp
    · simpa [step, timerCallback, timerSet_removeTimer_ne _ _ _ hne] using ht
    · intro r hrm
      simp [step, timerCallback] at hrm
      rcases hrm with hrm | hrm
      · exact hr r hrm
      · rw [hrm]; exact hne

/-- A valid trace without `create id` preserves the uncreated invariant. -/
theorem UncreatedInv_run (id : String) (tr : List MgrAction) (s : ApprovalManagerState)
    (hv : validTrace s tr = true) (hnc : ∀ a ∈ tr, isCreateOf id a = false)
    (h : UncreatedInv s id) : UncreatedInv (run s tr) id := by
  induction tr generalizing s with
  | nil => exact h
  | cons a rest ih =>
    have hsplit : validAction s a = true ∧ validTrace (step s a) rest = true := by
      simpa [validTrace, Bool.and_eq_true] using hv
    exact ih (step s a) hsplit.2 (fun x hx => hnc x (by simp [hx]))
      (UncreatedInv_step s id a hsplit.1 (hnc a (by simp)) h)

/-- One valid non-`create id` step preserves the live invariant. -/
theorem LiveInv_step (s : ApprovalManagerState) (id : String) (a : MgrAction)
    (hv : validAction s a = true) (hnc : isCreateOf id a = false)
    (h : LiveInv s id) : LiveInv (step s a) id := by
  obtain ⟨hp, hc, hs⟩ := h
  cases a with
  | create id2 now p =>
    have hne : id2 ≠ id := by simpa [isCreateOf] using hnc
    refine ⟨?_, ?_, ?_⟩
    · rw [step, createApproval]
      simpa [lookupKey_append_ne _ _ _ _ hne, timerSet_append_ne _ _ _ hne] using hp
    · simpa [step, createApproval, resCount, timerSet_append_ne _ _ _ hne] using hc
    · simpa [step, createApproval] using hs
  | decideReq rid d act reason now =>
    cases hl : lookupKey s.pending rid with
    | none => simpa [step, decideApproval, hl] using ⟨hp, hc, hs⟩
    | some req =>
      by_cases hne : rid = id
      · subst hne
        have htimer : timerSet s.activeTimers rid = true := by
          rw [← hp, hl]; rfl
        refine ⟨?_, ?_, ?_⟩
        · simp [step, decideApproval, hl, lookupKey_removeKey_self,
            timerSet_removeTimer_self]
        · have : resCount s rid = 0 := by rw [hc, htimer]; rfl
          simp [step, decideApproval, hl, timerSet_removeTimer_self, resCount,
            List.filter_append]
          simpa [resCount] using this
        · intro r hrm
          simp [step, decideApproval, hl] at hrm
          rcases hrm with hrm | hrm
          · exact hs r hrm
          · intro _
            right
            rw [hrm]
            cases d <;> simp [DecideDecision.toDecision]
      · refine ⟨?_, ?_, ?_⟩
        · rw [step, decideApproval]
          simp [hl]
          rw [lookupKey_removeKey_ne _ _ _ hne, timerSet_removeTimer_ne _ _ _ hne]
          exact hp
        · simp [step, decideApproval, hl, resCount, List.filter_append,
            timerSet_removeTimer_ne _ _ _ hne, hne]
          simpa [resCount] using hc
        · intro r hrm
          simp [step, decideApproval, hl] at hrm
          rcases hrm with hrm | hrm
          · exact hs r hrm
          · intro hrid
            rw [hrm] at hrid
            exact absurd hrid hne
  | fire fid now =>
    by_cases hne : fid = id
    · subst hne
      have htimer : timerSet s.activeTimers fid = true := by
        simpa [validAction] using hv
      refine ⟨?_, ?_, ?_⟩
      · simp [step, timerCallback, lookupKey_removeKey_self, timerSet_removeTimer_self]
      · have : resCount s fid = 0 := by rw [hc, htimer]; rfl
        simp [step, timerCallback, timerSet_removeTimer_self, resCount,
          List.filter_append]
        simpa [resCount] using this
      · intro r hrm
        simp [step, timerCallback] at hrm
        rcases hrm with hrm | hrm
        · exact hs r hrm
        · intro _
          left
          rw [hrm]
          exact ⟨rfl, rfl⟩
    · refine ⟨?_, ?_, ?_⟩
      · rw [step, timerCallback]
        simp
        rw [lookupKey_removeKey_ne _ _ _ hne, timerSet_removeTimer_ne _ _ _ hne]
        exact hp
      · simp [step, timerCallback, resCount, List.filter_append,
          timerSet_removeTimer_ne _ _ _ hne, hne]
        simpa [resCount] using hc
      · intro r hrm
        simp [step, timerCallback] at hrm
        rcases hrm with hrm | hrm
        · exact hs r hrm
        · intro hrid
          rw [hrm] at hrid
          exact absurd hrid hne

/-- A valid trace without `create id` preserves the live invariant. -/
theorem LiveInv_run (id : String) (tr : List MgrAction) (s : ApprovalManagerState)
    (hv : validTrace s tr = true) (hnc : ∀ a ∈ tr, isCreateOf id a = false)
    (h : LiveInv s id) : LiveInv (run s tr) id := by
  induction tr generalizing s with
  | nil => exact h
  | cons a rest ih =>
    have hsplit : validAction s a = true ∧ validTrace (step s a) rest = true := by
      simpa [validTrace, Bool.and_eq_true] using hv
    exact ih (step s a) hsplit.2 (fun x hx => hnc x (by simp [hx]))
      (LiveInv_step s id a hsplit.1 (hnc a (by simp)) h)

/-- The `create` step establishes the live invariant. -/
theorem LiveInv_create (s : ApprovalManagerState) (id now : String) (p : CreateParams)
    (h : UncreatedInv s id) : LiveInv (step s (.create id now p)) id := by
  obtain ⟨hp, ht, hr⟩ := h
  refine ⟨?_, ?_, ?_⟩
  · simp [step, createApproval, lookupKey_append_self _ _ _ hp, timerSet_append_self]
  · have hz : resCount s id = 0 := by
      simp [resCount, List.length_eq_zero, List.filter_eq_nil_iff]
      exact hr
    simpa [step, createApproval, resCount, timerSet_append_self] using hz
  · intro r hrm hrid
    exact absurd hrid (hr r (by simpa [step, createApproval] using hrm))

/-- A list is an infix of anything that surrounds it. -/
theorem isInfix_of_surround (l a b : List Char) : l <:+: a ++ l ++ b :=
  ⟨a, b, by simp⟩

/-- `String.toList` distributes over append. -/
theorem toList_append (s t : String) : (s ++ t).toList = s.toList ++ t.toList :=
  rfl

/-- `canSendToExternalLLM` decides `levelRank`-comparison (bridge between
the `indexOf` subtraction of the source and the abstract order). -/
theorem canSend_eq_rank (l mx : ClassificationLevel) (b : Bool) :
    canSendToExternalLLM l { maxExternalClassification := mx, maskPiiBeforeExternal := b } =
      decide (levelRank l ≤ levelRank mx) := by
  cases l <;> cases mx <;> rfl

/-- `decide` on an id that is not in the pending map is a no-op returning
`false`. -/
theorem decideApproval_not_pending (s : ApprovalManagerState) (rid : String)
    (d : DecideDecision) (a : Actor) (reason : Option String) (now : String)
    (h : lookupKey s.pending rid = none) :
    decideApproval s rid d a reason now = (false, s) := by
  simp [decideApproval, h]

/-! ## Claim theorems: approval manager -/

/-- C2: under every valid interleaving of `decide` calls and timer
callbacks (timer callbacks only run while their timer is armed, since
`decide` clears the timer it owns), the promise of a created approval is
resolved exactly once as soon as its timer has been consumed — by the
winning path — and never before; every resolution is either a decision
(`approved`/`rejected`, carrying the deciding actor) or the timer's
`timeout`; and once resolved, a late `decide` observes the entry as
absent and is a no-op. -/
theorem approval_resolved_exactly_once (opts : Option Nat) (id now : String)
    (prm : CreateParams) (t1 t2 : List MgrAction)
    (h1 : ∀ a ∈ t1, isCreateOf id a = false)
    (h2 : ∀ a ∈ t2, isCreateOf id a = false)
    (hv : validTrace (initState opts) (t1 ++ .create id now prm :: t2) = true) :
    resCount (afterTrace opts id now prm t1 t2) id =
      (if timerSet (afterTrace opts id now prm t1 t2).activeTimers id then 0 else 1) ∧
    (∀ r ∈ (afterTrace opts id now prm t1 t2).resolutions, resShape id r) ∧
    (timerSet (afterTrace opts id now prm t1 t2).activeTimers id = false →
      ∀ d act reason now2,
        decideApproval (afterTrace opts id now prm t1 t2) id d act reason now2 =
          (false, afterTrace opts id now prm t1 t2)) := by
  have hv1 : validTrace (initState opts) t1 = true ∧
      validTrace (run (initState opts) t1) (.create id now prm :: t2) = true := by
    simpa [validTrace_append, Bool.and_eq_true] using hv
  have hv2 : validAction (run (initState opts) t1) (.create id now prm) = true ∧
      validTrace (step (run (initState opts) t1) (.create id now prm)) t2 = true := by
    simpa [validTrace, Bool.and_eq_true] using hv1.2
  have hU0 : UncreatedInv (initState opts) id := ⟨rfl, rfl, by simp [initState]⟩
  have hU1 : UncreatedInv (run (initState opts) t1) id :=
    UncreatedInv_run id t1 (initState opts) hv1.1 h1 hU0
  have hL0 : LiveInv (step (run (initState opts) t1) (.create id now prm)) id :=
    LiveInv_create (run (initState opts) t1) id now prm hU1
  have hL : LiveInv (afterTrace opts id now prm t1 t2) id := by
    have := LiveInv_run id t2 (step (run (initState opts) t1) (.create id now prm))
      hv2.2 h2 hL0
    simpa [afterTrace, run_append, run] using this
  obtain ⟨hiso, hcount, hshape⟩ := hL
  refine ⟨hcount, hshape, ?_⟩
  intro htimer d act reason now2
  have hnone : lookupKey (afterTrace opts id now prm t1 t2).pending id = none := by
    rw [htimer] at hiso
    cases hlk : lookupKey (afterTrace opts id now prm t1 t2).pending id with
    | none => rfl
    | some req => rw [hlk] at hiso; exact absurd hiso (by simp)
  exact decideApproval_not_pending _ _ _ _ _ _ hnone

/-- C2 witness: the theorem applied to the concrete schedule
"create, then the timer fires": the promise is resolved exactly once. -/
theorem approval_resolved_exactly_once_witness :
    resCount (afterTrace none "a" "t0" wParams [] [.fire "a" "t1"]) "a" = 1 :=
  ((approval_resolved_exactly_once none "a" "t0" wParams [] [.fire "a" "t1"]
      (by simp) (by decide) (by rfl)).1).trans (by rfl)

/-- C3: `decide` on an id that is not currently pending returns `false`
and leaves the state untouched; on a pending id it returns `true`,
removes the entry, disarms its timer, and resolves the future with
`{id, decision, decidedBy: actor, decidedAt, reason}`; after a successful
`decide`, every further `decide` on the same id returns `false` and
changes nothing. -/
theorem decideApproval_spec (s : ApprovalManagerState) (rid : String)
    (d : DecideDecision) (a : Actor) (reason : Option String) (now : String) :
    (lookupKey s.pending rid = none →
      decideApproval s rid d a reason now = (false, s)) ∧
    (∀ req, lookupKey s.pending rid = some req →
      (decideApproval s rid d a reason now).1 = true ∧
      lookupKey (decideApproval s rid d a reason now).2.pending rid = none ∧
      timerSet (decideApproval s rid d a reason now).2.activeTimers rid = false ∧
      (decideApproval s rid d a reason now).2.resolutions =
        s.resolutions ++
          [{ id := rid, decision := d.toDecision, decidedBy := some a,
             decidedAt := now, reason := reason }]) ∧
    ((decideApproval s rid d a reason now).1 = true →
      ∀ d2 a2 r2 n2,
        decideApproval (decideApproval s rid d a reason now).2 rid d2 a2 r2 n2 =
          (false, (decideApproval s rid d a reason now).2)) := by
  cases hl : lookupKey s.pending rid with
  | none =>
    refine ⟨fun _ => by simp [decideApproval, hl], ?_, ?_⟩
    · intro req hreq
      exact Option.noConfusion hreq
    · intro htrue
      rw [show (decideApproval s rid d a reason now).1 = false by
        simp [decideApproval, hl]] at htrue
      exact Bool.noConfusion htrue
  | some req =>
    refine ⟨fun hn => Option.noConfusion hn, ?_, ?_⟩
    · intro req2 _
      refine ⟨by simp [decideApproval, hl], ?_, ?_, ?_⟩
      · simp [decideApproval, hl, lookupKey_removeKey_self]
      · simp [decideApproval, hl, timerSet_removeTimer_self]
      · simp [decideApproval, hl]
    · intro _ d2 a2 r2 n2
      have hnone : lookupKey (decideApproval s rid d a reason now).2.pending rid =
          none := by
        simp [decideApproval, hl, lookupKey_removeKey_self]
      exact decideApproval_not_pending _ _ _ _ _ _ hnone

/-- C3 witness: the theorem applied at a concrete state — the pending id
decides `true`, an unknown id is a no-op. -/
theorem decideApproval_spec_witness :
    (decideApproval wState "r1" .approved wActor none "t1").1 = true ∧
    decideApproval wState "nope" .approved wActor none "t1" = (false, wState) :=
  ⟨((decideApproval_spec wState "r1" .approved wActor none "t1").2.1 wReq rfl).1,
   (decideApproval_spec wState "nope" .approved wActor none "t1").1 rfl⟩

/-! ## Claim theorems: classification gate and RBAC -/

/-- C6: for all 16 (level, ceiling) pairs over
`{public, internal, confidential, restricted}` (and either value of the
policy's masking flag), `canSendToExternalLLM` is true iff
level ≤ ceiling under the total order
`public < internal < confidential < restricted`. -/
theorem canSendToExternalLLM_iff_le (l mx : ClassificationLevel) (b : Bool) :
    canSendToExternalLLM l
        { maxExternalClassification := mx, maskPiiBeforeExternal := b } = true ↔
      levelRank l ≤ levelRank mx := by
  rw [canSend_eq_rank]; simp

/-- C5: `gateExternalLLM` raises a `ClassificationBlocked` error naming
both the data's classification and the policy's ceiling iff the
classification exceeds `policy.maxExternalClassification`; when allowed
and `maskPiiBeforeExternal` is not set it returns the text unchanged with
`masked = false`. -/
theorem gateExternalLLM_spec (l mx : ClassificationLevel) (b : Bool) (text : String) :
    (levelRank mx < levelRank l →
      gateExternalLLM l { maxExternalClassification := mx, maskPiiBeforeExternal := b } text =
          .error (gateBlockedMsg l mx) ∧
        (clName l).toList <:+: (gateBlockedMsg l mx).toList ∧
        (clName mx).toList <:+: (gateBlockedMsg l mx).toList) ∧
    (levelRank l ≤ levelRank mx →
      (∀ msg, gateExternalLLM l
          { maxExternalClassification := mx, maskPiiBeforeExternal := b } text ≠ .error msg) ∧
      (b = false →
        gateExternalLLM l { maxExternalClassification := mx, maskPiiBeforeExternal := b } text =
          .ok (text, false))) := by
  constructor
  · intro h
    have hc : canSendToExternalLLM l
        { maxExternalClassification := mx, maskPiiBeforeExternal := b } = false := by
      rw [canSend_eq_rank]; simpa using Nat.not_le.mpr h
    refine ⟨by simp [gateExternalLLM, hc], ?_, ?_⟩
    · have : (gateBlockedMsg l mx).toList =
          ("[CLASSIFICATION] External LLM blocked for classification=").toList ++
            (clName l).toList ++ ("; max=" ++ clName mx).toList := by
        simp [gateBlockedMsg, toList_append, List.append_assoc]
      rw [this]; exact isInfix_of_surround _ _ _
    · have : (gateBlockedMsg l mx).toList =
          ("[CLASSIFICATION] External LLM blocked for classification=" ++ clName l ++
            "; max=").toList ++ (clName mx).toList ++ [] := by
        simp [gateBlockedMsg, toList_append, List.append_assoc]
      rw [this]; exact isInfix_of_surround _ _ _
  · intro h
    have hc : canSendToExternalLLM l
        { maxExternalClassification := mx, maskPiiBeforeExternal := b } = true := by
      rw [canSend_eq_rank]; simpa using h
    constructor
    · intro msg
      cases b <;> simp [gateExternalLLM, hc]
    · intro hb
      subst hb
      simp [gateExternalLLM, hc]

/-- C5 witness: the theorem applied at concrete levels in both the blocked
and the allowed case. -/
theorem gateExternalLLM_spec_witness :
    gateExternalLLM .confidential
        { maxExternalClassification := .internal, maskPiiBeforeExternal := false } "t" =
      .error (gateBlockedMsg .confidential .internal) ∧
    gateExternalLLM .publicLevel
        { maxExternalClassification := .internal, maskPiiBeforeExternal := false } "t" =
      .ok ("t", false) :=
  ⟨((gateExternalLLM_spec .confidential .internal false "t").1 (by decide)).1,
   ((gateExternalLLM_spec .publicLevel .internal false "t").2 (by decide)).2 rfl⟩

/-- C7: `maskPII` on `"Contact me at a@b.com or 415-555-0101"` returns
`masked = true`, a text containing neither the literal email nor the
literal phone substring, and exactly one `email` and one `phone` match. -/
theorem maskPII_contact_example :
    maskPII "Contact me at a@b.com or 415-555-0101" =
      ⟨"Contact me at [EMAIL_REDACTED] or [PHONE_REDACTED]", true,
        [⟨"email", "a@b.com"⟩, ⟨"phone", "415-555-0101"⟩]⟩ ∧
    ¬ ("a@b.com".toList <:+:
        (maskPII "Contact me at a@b.com or 415-555-0101").text.toList) ∧
    ¬ ("415-555-0101".toList <:+:
        (maskPII "Contact me at a@b.com or 415-555-0101").text.toList) := by
  refine ⟨by decide, by decide, by decide⟩

/-- C4: the claim fails on the code at a prototype-chain role key.
The JS `in` test in `normalizeRoles` sees inherited `Object.prototype`
keys, so `"constructor"` survives normalization; an actor with zero
recognized matrix roles then does not get `false` — `hasPermission`
throws a `TypeError` from `PERMISSIONS["constructor"].has`.  And for
`roles = ["constructor", "admin"]` a normalized role (`admin`) does hold
the permission in its matrix cell, yet `hasPermission` is not true: it
throws before reaching it, refuting the claim's iff. -/
theorem hasPermission_prototype_key_throws :
    normalizeRoles (some ["constructor"]) = ["constructor"] ∧
    hasPermission { id := "u", roles := some ["constructor"] } .configRead =
      .error (.typeError "PERMISSIONS[r].has is not a function") ∧
    (∃ r ∈ normalizeRoles (some ["constructor", "admin"]),
      ∃ role, parseRole r = some role ∧ Permission.configRead ∈ PERMISSIONS role) ∧
    hasPermission { id := "u", roles := some ["constructor", "admin"] } .configRead =
      .error (.typeError "PERMISSIONS[r].has is not a function") := by
  refine ⟨rfl, rfl, ⟨"admin", by decide, .admin, rfl, by decide⟩, rfl⟩

/-- C8: the claim fails on the code at a prototype-chain role key: the
program escapes with the `TypeError` raised inside `hasPermission` — not
the `PermissionDenied` error, and not a normal return.  The claim's
concrete scenarios do hold: the viewer is denied with the identifying
message and the manager succeeds. -/
theorem assertPermission_prototype_key_throws :
    assertPermission { id := "u", roles := some ["constructor"] } .deployRun =
      .error (.typeError "PERMISSIONS[r].has is not a function") ∧
    (∀ m, assertPermission { id := "u", roles := some ["constructor"] } .deployRun ≠
      .error (.error m)) ∧
    assertPermission { id := "v1", roles := some ["viewer"] } .deployRun =
      .error (.error (rbacDeniedMsg { id := "v1", roles := some ["viewer"] } .deployRun)) ∧
    assertPermission { id := "m1", roles := some ["manager"] } .deployRun = .ok () := by
  refine ⟨rfl, ?_, rfl, rfl⟩
  intro m h
  rw [show assertPermission { id := "u", roles := some ["constructor"] }
        Permission.deployRun =
      .error (.typeError "PERMISSIONS[r].has is not a function") from rfl] at h
  injection h with h2
  exact JsError.noConfusion h2

/-- The scan loop of `search` refines filter/parse/take: starting from a
partial result shorter than `limit`, it returns the partial result
followed by the parses of the matching lines, cut off at `limit`. -/
theorem searchGo_spec (parse : String → Option AuditEvent) (query : String)
    (limit : Nat) (ls : List String) (out : List AuditEvent)
    (h : out.length < limit) :
    searchGo parse query limit ls out =
      out ++ ((ls.filter (fun l => containsSub l.toList query.toList)).filterMap parse).take
        (limit - out.length) := by
  induction ls generalizing out with
  | nil => simp [searchGo]
  | cons l rest ih =>
    cases hc : containsSub l.data query.data with
    | false => simp [searchGo, hc, ih out h]
    | true =>
      cases hp : parse l with
      | none => simp [searchGo, hc, hp, ih out h]
      | some e =>
        by_cases hl : limit ≤ out.length + 1
        · have hlim : limit - out.length = 1 := by omega
          have ht : ∀ xs : List AuditEvent, List.take 1 (e :: xs) = [e] := fun xs => rfl
          simp [searchGo, hc, hp, hl, hlim, ht]
        · have h2 : (out ++ [e]).length < limit := by simp; omega
          have hlim : limit - out.length = (limit - (out.length + 1)) + 1 := by omega
          simp [searchGo, hc, hp, hl, ih (out ++ [e]) h2, hlim, List.take_succ_cons]

/-- C9 (amended: positive limit): for every query and limit ≥ 1 (with the
default `limit = 50` when absent), `search` returns, newest-first, up to
`limit` events parsed from the lines containing the query; malformed
lines are skipped without aborting and do not count toward the limit. -/
theorem search_newest_first (parse : String → Option AuditEvent)
    (content query : String) (limit : Nat) (h : 1 ≤ limit) :
    search parse content query (some limit) =
      (((((splitLinesJS content.toList).filter (fun l => !l.isEmpty)).reverse.map
            String.mk).filter
          (fun l => containsSub l.toList query.toList)).filterMap parse).take limit ∧
    search parse content query none = search parse content query (some 50) := by
  refine ⟨?_, rfl⟩
  have hz : ([] : List AuditEvent).length < limit := by simpa using h
  simpa [search] using
    searchGo_spec parse query limit
      (((splitLinesJS content.toList).filter (fun l => !l.isEmpty)).reverse.map String.mk)
      [] hz

set_option maxRecDepth 100000 in
/-- C9 witness: the amended theorem applied to the example file with
`limit = 2`: the malformed middle line is skipped, the two events come
back newest-first. -/
theorem search_newest_first_witness :
    search c9ParseFn c9Content "x" (some 2) = [c9EventB, c9EventA] :=
  ((search_newest_first c9ParseFn c9Content "x" 2 (by decide)).1).trans (by rfl)

set_option maxRecDepth 100000 in
/-- C9 counterexample: with `limit = 0`, the source's length check runs
only after a successful push, so `search` returns one event, not "up to
0" events. -/
theorem search_limit_zero_counterexample :
    search c9ParseFn c9Content "x" (some 0) = [c9EventB] ∧
    ¬ (search c9ParseFn c9Content "x" (some 0)).length ≤ 0 := by
  exact ⟨rfl, by decide⟩

set_option maxRecDepth 100000 in
/-- C1: at an event whose serialised text matches the bearer-token
pattern, `log` persists the secret while the claim says it never does.
The changed branch makes `final` a *string*, so the primary line is the
double-encoded `JSON.stringify(JSON.stringify({...redacted: true...}))`
and still contains the literal secret; the secondary sink receives the
original `details` verbatim and — `(final as any).redacted` being
`undefined` on a string — is not even flagged (`redacted: false`).  The
source computes `redactText`'s output and discards it. -/
theorem auditLog_secret_reaches_both_sinks :
    (redactText (stringifyAuditEvent bearerSecretEvent) DEFAULT_REDACT_PATTERNS).2 = true ∧
    auditLogFinal DEFAULT_REDACT_PATTERNS bearerSecretEvent =
      .strVal (stringifyAuditEvent
        { bearerSecretEvent with
            redacted := some true,
            details := some [("note", .str "Bearer abc123XYZsecretvalue"),
                             ("_redacted", .bool true)] }) ∧
    auditLogPrimaryLine DEFAULT_REDACT_PATTERNS bearerSecretEvent =
      jsonQuote (stringifyAuditEvent
        { bearerSecretEvent with
            redacted := some true,
            details := some [("note", .str "Bearer abc123XYZsecretvalue"),
                             ("_redacted", .bool true)] }) ∧
    containsSub (auditLogPrimaryLine DEFAULT_REDACT_PATTERNS bearerSecretEvent).toList
      "Bearer abc123XYZsecretvalue".toList = true ∧
    (auditLogSupabaseRow DEFAULT_REDACT_PATTERNS bearerSecretEvent).redacted = false ∧
    (auditLogSupabaseRow DEFAULT_REDACT_PATTERNS bearerSecretEvent).details =
      some [("note", .str "Bearer abc123XYZsecretvalue")] := by
  exact ⟨rfl, rfl, rfl, rfl, rfl, rfl⟩

/-- C10: an actor whose `roles` field is entirely absent yields the empty
normalized role set (rather than an error), so `hasPermission` is false
for every permission and `assertPermission` raises — fail-closed on the
undefined-roles edge case. -/
theorem undefined_roles_fail_closed (i : String) (dn em : Option String) (p : Permission) :
    normalizeRoles none = [] ∧
    hasPermission { id := i, displayName := dn, email := em, roles := none } p = .ok false ∧
    assertPermission { id := i, displayName := dn, email := em, roles := none } p =
      .error (.error
        (rbacDeniedMsg { id := i, displayName := dn, email := em, roles := none } p)) := by
  refine ⟨rfl, rfl, rfl⟩

end Cortex
